import Mathlib

/-!
Shallow embedding of the `config` package of rohilsurana/salt
(src/config/config.go) and proofs about it.

The package loads layered configuration (file, environment variables,
struct-tag defaults) into a destination structure through viper and
mapstructure, and renders a redacted printable view of a populated
structure (`GetPrintable`).

Conventions of the embedding:
- Go strings are Lean `String`; byte output is `List Char`.
- `interface{}` parameters whose reflective kind matters are the
  inductive `GoParam`: a pointer to a struct, a pointer to something
  else, or a non-pointer value (carrying the kind's printed name).
- Fallible Go functions return `Except` / a `GoResult` that can also
  record a runtime panic.
- External collaborators (viper, mapstructure, go-defaults, flatten,
  encoding/json) are not part of src/; where their behaviour decides a
  claim they are modelled from the spec, and each such definition says
  so in its doc comment.
-/

namespace Salt

/-! ### SecretString (config.go lines 21-29) -/

/-- `type SecretString string`: a distinct string-like type wrapping the
real value. -/
structure SecretString where
  val : String
  deriving Repr, DecidableEq

/-- The fixed masking token: sixteen asterisks. -/
def maskToken : String := "****************"

/-- `func (s SecretString) String() string { return "****************" }`
(the display conversion; named `string` because `String` is the Lean
string type). -/
def SecretString.string (_ : SecretString) : String := maskToken

/-- `func (s SecretString) Secret() string { return string(s) }`
(the explicit unmask operation). -/
def SecretString.Secret (s : SecretString) : String := s.val

/-! ### Reflective argument kinds, errors, results -/

/-- The reflective shape of an `interface{}` argument, as far as
`verifyParamIsPtrToStructElsePanic` and `GetPrintable` inspect it:
a pointer to a struct (carrying the embedded struct contents `α`),
a pointer to a non-struct, or a non-pointer value.  The `kind` strings
are the `reflect.Kind` names Go would print (e.g. "int", "string"). -/
inductive GoParam (α : Type) where
  | ptrToStruct (contents : α)
  | ptrToOther (kind : String)
  | nonPtr (kind : String)
  deriving Repr, DecidableEq

/-- Error taxonomy of `Load` (each constructor carries the formatted
message the Go code builds with `fmt.Errorf`). -/
inductive GoError where
  | invalidArgument (msg : String)
  | sourceRead (msg : String)
  | decodeError (msg : String)
  deriving Repr, DecidableEq

/-- Result of a Go call that can succeed, return an error, or panic. -/
inductive GoResult (α : Type) where
  | ok (a : α)
  | err (msg : String)
  | panicked (msg : String)
  deriving Repr, DecidableEq

/-- Extract the success value of a `GoResult`, with a fallback. -/
def GoResult.getD (r : GoResult α) (dflt : α) : α :=
  match r with
  | .ok a => a
  | _ => dflt

/-! ### verifyParamIsPtrToStructElsePanic (config.go lines 130-141) -/

/-- `verifyParamIsPtrToStructElsePanic`: returns the error message for a
non-pointer (`Got <kind>`) or a pointer to a non-struct
(`got ptr to <kind>`), and `none` for a pointer to a struct. -/
def verifyParamIsPtrToStructElsePanic (param : GoParam α) : Option String :=
  match param with
  | .nonPtr k => some ("require ptr to a struct for Load. Got " ++ k)
  | .ptrToOther k => some ("require ptr to a struct for Load. got ptr to " ++ k)
  | .ptrToStruct _ => none

/-! ### The Load model (config.go lines 96-128)

The destination struct is modelled as a flat list of fields; each field
carries its flattened key, its current (string-typed) value and the
optional `default` struct tag.  The zero value of a string field is "". -/

/-- One field of the destination struct, as `Load` sees it. -/
structure LoadField where
  key : String
  cur : String
  dflt : Option String
  deriving Repr, DecidableEq

/-- Outcome of `viper.ReadInConfig`: the configured file was not found
(`viper.ConfigFileNotFoundError`), reading/parsing failed with another
error, or it produced a map of file values. -/
inductive FileResult where
  | notFound
  | readError (msg : String)
  | found (vals : List (String × String))
  deriving Repr, DecidableEq

/-- The ambient sources `Load` consults: the environment (an association
list from bound key to value) and the file read outcome. -/
structure LoadEnv where
  env : List (String × String)
  file : FileResult
  deriving Repr, DecidableEq

/-- Provider state of the Loader's viper instance, as far as `Load`
mutates it: the AutomaticEnv flag and the list of explicitly bound keys. -/
structure LoaderState where
  automaticEnv : Bool
  boundKeys : List String
  deriving Repr, DecidableEq

/-- Modelled from the spec: `defaults.SetDefaults` (external go-defaults
library) on one field: write the declared default into the field only
when the field's current value is the type's zero value (here: the
empty string). -/
def setDefaultsField (f : LoadField) : LoadField :=
  match f.dflt with
  | some d => if f.cur = "" then { f with cur := d } else f
  | none => f

/-- `defaults.SetDefaults(config)`: apply `setDefaultsField` to every
field of the struct. -/
def setDefaults (fields : List LoadField) : List LoadField :=
  fields.map setDefaultsField

/-- The values the file contributes: none unless `ReadInConfig` found
and parsed a file. -/
def FileResult.vals : FileResult → List (String × String)
  | .found vs => vs
  | _ => []

/-- Modelled from the spec: `viper.Unmarshal` resolves each bound key
with precedence environment variable > file value, and leaves the
struct's current (possibly defaulted) value in place when neither source
has the key. -/
def resolveField (E : LoadEnv) (f : LoadField) : LoadField :=
  match E.env.lookup f.key with
  | some v => { f with cur := v }
  | none =>
    match E.file.vals.lookup f.key with
    | some v => { f with cur := v }
    | none => f

/-- `func (l *Loader) Load(config interface{}) error` (config.go lines
96-128): verify the argument, enable AutomaticEnv, read the file
(tolerating only the not-found error), flatten the struct keys, bind
each key to the environment, apply struct-tag defaults to zero-valued
fields, then unmarshal the merged sources into the struct.  Returns the
error, the destination after the call, and the provider state after the
call. -/
def Load (param : GoParam (List LoadField)) (st : LoaderState) (E : LoadEnv) :
    Except GoError Unit × GoParam (List LoadField) × LoaderState :=
  match verifyParamIsPtrToStructElsePanic param, param with
  | some msg, _ => (.error (.invalidArgument msg), param, st)
  | none, .ptrToStruct fields =>
    -- l.v.AutomaticEnv()
    let st1 : LoaderState := { st with automaticEnv := true }
    match E.file with
    | .readError e =>
      (.error (.sourceRead ("unable to read configs using viper: " ++ e)), param, st1)
    | _ =>
      -- getFlattenedStructKeys + BindEnv for every key
      let keys := fields.map (·.key)
      let st2 : LoaderState := { st1 with boundKeys := st1.boundKeys ++ keys }
      -- defaults.SetDefaults(config)
      let defaulted := setDefaults fields
      -- l.v.Unmarshal(config)
      let final := defaulted.map (resolveField E)
      (.ok (), .ptrToStruct final, st2)
  | none, p => (.ok (), p, st)

/-- The destination struct contents after a `Load` call. -/
def loadDest (r : Except GoError Unit × GoParam (List LoadField) × LoaderState) :
    List LoadField :=
  match r.2.1 with
  | .ptrToStruct fields => fields
  | _ => []

/-! ### The Decode pipeline (config.go lines 195-230)

`Decode` builds a mapstructure decoder whose DecodeHook is
`ComposeDecodeHookFunc(StringToTimeDurationHookFunc(),
StringToSliceHookFunc(","), SecretStringMaskHookFunc())`.  Hooks receive
the source type, the target type and the data, and either transform the
data or pass it through. -/

/-- The Go types the decode hooks discriminate on. -/
inductive GoType where
  | stringT
  | durationT
  | sliceStringT
  | secretStringT
  | interfaceT
  | otherT (name : String)
  deriving Repr, DecidableEq

/-- The dynamic values flowing through the decode hooks. -/
inductive GoVal where
  | str (s : String)
  | dur (ns : Int)
  | strList (xs : List String)
  | secret (s : SecretString)
  | other (name : String)
  deriving Repr, DecidableEq

/-- `reflect.TypeOf` of a hook's data value. -/
def GoVal.typeOf : GoVal → GoType
  | .str _ => .stringT
  | .dur _ => .durationT
  | .strList _ => .sliceStringT
  | .secret _ => .secretStringT
  | .other n => .otherT n

/-- A decode hook: source type, target type, data. -/
def DecodeHook : Type := GoType → GoType → GoVal → Except String GoVal

/-- Modelled from the spec: `time.ParseDuration`'s recognized syntax,
restricted to the integral-seconds form `"<digits>s"`; result in
nanoseconds. -/
def parseDuration (s : String) : Option Int :=
  match s.dropRight 1 with
  | num =>
    if s.endsWith "s" ∧ num ≠ "" ∧ num.all Char.isDigit then
      some ((num.toNat!) * 1000000000)
    else
      none

/-- Modelled from the spec: `mapstructure.StringToTimeDurationHookFunc`:
when the source is a string and the target is `time.Duration`, parse the
string as a duration; otherwise pass the data through. -/
def StringToTimeDurationHookFunc : DecodeHook := fun f t data =>
  if f ≠ .stringT then .ok data
  else if t ≠ .durationT then .ok data
  else
    match data with
    | .str s =>
      match parseDuration s with
      | some ns => .ok (.dur ns)
      | none => .error ("time: invalid duration " ++ s)
    | _ => .ok data

/-- Modelled from the spec: `mapstructure.StringToSliceHookFunc(",")`:
when the source is a string and the target is a slice, split the string
on the separator (an empty string becomes the empty slice); otherwise
pass the data through. -/
def StringToSliceHookFunc (sep : String) : DecodeHook := fun f t data =>
  if f ≠ .stringT then .ok data
  else if t ≠ .sliceStringT then .ok data
  else
    match data with
    | .str s => if s = "" then .ok (.strList []) else .ok (.strList (s.splitOn sep))
    | _ => .ok data

/-- `SecretStringMaskHookFunc` (config.go lines 217-230): pass the data
through unless both the source type and the target type are
`SecretString`; in that case return `data.(SecretString).String()`,
i.e. the fixed masking token as a plain string. -/
def SecretStringMaskHookFunc : DecodeHook := fun f t data =>
  if f ≠ .secretStringT then .ok data
  else if t ≠ .secretStringT then .ok data
  else
    match data with
    | .secret s => .ok (.str (s.string))
    | d => .ok d  -- unreachable when `f` is the type of `data`

/-- Modelled from the spec: `mapstructure.ComposeDecodeHookFunc` runs
the hooks in order, feeding each hook's output (and its recomputed
source type) into the next. -/
def composeHooks (hooks : List DecodeHook) (f t : GoType) (data : GoVal) :
    Except String GoVal :=
  match hooks with
  | [] => .ok data
  | h :: rest => do
    let data' ← h f t data
    composeHooks rest data'.typeOf t data'

/-- The hook chain `Decode` installs, in source order (config.go lines
202-206). -/
def decodeHookChain : List DecodeHook :=
  [StringToTimeDurationHookFunc, StringToSliceHookFunc ",", SecretStringMaskHookFunc]

/-- The composed DecodeHook of `Decode`. -/
def decodeHook : GoType → GoType → GoVal → Except String GoVal :=
  composeHooks decodeHookChain

/-! ### Structure values for GetPrintable (config.go lines 170-193)

A populated destination structure: string fields, `SecretString`
fields, and nested struct fields.  `FieldList` is the (ordered) field
list of a struct. -/

mutual
/-- A field value of a populated destination structure. -/
inductive FieldVal where
  | str (s : String)
  | secret (s : SecretString)
  | record (fields : FieldList)
  deriving Repr, DecidableEq

/-- The named fields of a struct, in declaration order. -/
inductive FieldList where
  | nil
  | cons (name : String) (v : FieldVal) (rest : FieldList)
  deriving Repr, DecidableEq
end

/-- `Decode(config, &structMap)` / `Decode(newConfig, &structMap)`:
decoding a struct into a `map[string]interface{}`.  The hook targets are
`interface{}`, so no hook of `decodeHookChain` transforms any value and
the map holds the fields' concrete values; in this embedding map and
struct share the representation, so the step is the identity. -/
def decodeStructToMap (v : FieldVal) : FieldVal := v

mutual
/-- `Decode(structMap, &newConfig)`: decoding the generic map back into
a fresh instance of the struct type runs the hook chain on every field
with matching source and target types.  String fields pass through every
hook; for a `SecretString` field both types are `SecretString`, so
`SecretStringMaskHookFunc` yields the masking token as a string, which
the weakly-typed decoder stores into the `SecretString` field; struct
fields recurse. -/
def decodeMapToStruct : FieldVal → FieldVal
  | .str s => .str s
  | .secret s => .secret ⟨s.string⟩
  | .record fields => .record (decodeMapToStructList fields)

/-- Field-wise `decodeMapToStruct`. -/
def decodeMapToStructList : FieldList → FieldList
  | .nil => .nil
  | .cons n v rest => .cons n (decodeMapToStruct v) (decodeMapToStructList rest)
end

/-! JSON rendering, modelled from the spec's external collaborator
`json.MarshalIndent(structMap, "", "  ")`: objects with two-space
indentation per level; `SecretString` marshals as its underlying string
(it defines no MarshalJSON); string escaping of quote and backslash
(control/HTML escaping is omitted — no value in the claims needs it).
Key order follows the field list.  The output is a `List Char`. -/

/-- JSON escaping of one character. -/
def escChar (c : Char) : List Char :=
  if c = '"' then ['\\', '"']
  else if c = '\\' then ['\\', '\\']
  else [c]

/-- JSON escaping of a string body. -/
def escStr : List Char → List Char
  | [] => []
  | c :: cs => escChar c ++ escStr cs

/-- Two spaces of indentation per level. -/
def indentChars (depth : Nat) : List Char :=
  List.replicate (2 * depth) ' '

mutual
/-- Serialize a value at nesting depth `depth`; a record serializes as a
JSON object. -/
def serVal (depth : Nat) : FieldVal → List Char
  | .str s => '"' :: (escStr s.data ++ ['"'])
  | .secret s => '"' :: (escStr s.val.data ++ ['"'])
  | .record .nil => ['{', '}']
  | .record (.cons n v rest) =>
    '{' :: '\n' :: (serFields (depth + 1) (.cons n v rest) ++
      '\n' :: (indentChars depth ++ ['}']))

/-- Serialize the fields of an object, comma-and-newline separated. -/
def serFields (depth : Nat) : FieldList → List Char
  | .nil => []
  | .cons n v .nil =>
    indentChars depth ++ ('"' :: (escStr n.data ++
      '"' :: ':' :: ' ' :: serVal depth v))
  | .cons n v (.cons n' v' rest) =>
    indentChars depth ++ ('"' :: (escStr n.data ++
      '"' :: ':' :: ' ' :: (serVal depth v ++
        ',' :: '\n' :: serFields depth (.cons n' v' rest))))
end

/-- Serialize a struct (a JSON object). -/
def serObj (depth : Nat) (fields : FieldList) : List Char :=
  serVal depth (.record fields)

/-- `func GetPrintable(config interface{}) ([]byte, error)` (config.go
lines 170-193): `reflect.ValueOf(config).Elem()` panics on a
non-pointer argument; a pointer to a non-struct fails in the first
`Decode` into a map; a pointer to a struct is decoded to a map, decoded
back through the hook chain into a fresh struct (masking every
`SecretString` field), decoded to a map again, and marshalled as
indented JSON. -/
def GetPrintable (config : GoParam FieldList) : GoResult (List Char) :=
  match config with
  | .nonPtr k =>
    .panicked ("reflect: call of reflect.Value.Elem on " ++ k ++ " Value")
  | .ptrToOther k =>
    .err ("'' expected a map, got '" ++ k ++ "'")
  | .ptrToStruct fields =>
    let structMap := decodeStructToMap (.record fields)
    let newConfig := decodeMapToStruct structMap
    let structMap2 := decodeStructToMap newConfig
    .ok (serVal 0 structMap2)

/-! Helper observations on structure values. -/

mutual
/-- Does the structure contain a `SecretString` field with underlying
value `s`? -/
def hasSecretVal (s : String) : FieldVal → Bool
  | .str _ => false
  | .secret sec => sec.val = s
  | .record fields => hasSecretValList s fields

/-- Field-wise `hasSecretVal`. -/
def hasSecretValList (s : String) : FieldList → Bool
  | .nil => false
  | .cons _ v rest => hasSecretVal s v || hasSecretValList s rest
end

mutual
/-- Does the structure contain any `SecretString` field? -/
def hasSecretField : FieldVal → Bool
  | .str _ => false
  | .secret _ => true
  | .record fields => hasSecretFieldList fields

/-- Field-wise `hasSecretField`. -/
def hasSecretFieldList : FieldList → Bool
  | .nil => false
  | .cons _ v rest => hasSecretField v || hasSecretFieldList rest
end

mutual
/-- The non-secret string leaves of a structure, as (name, value) pairs
in serialization order. -/
def strLeaves : FieldVal → List (String × String)
  | .str _ => []
  | .secret _ => []
  | .record fields => strLeavesList fields

/-- Field-wise `strLeaves`, prefixing each leaf with its field name. -/
def strLeavesList : FieldList → List (String × String)
  | .nil => []
  | .cons n (.str s) rest => (n, s) :: strLeavesList rest
  | .cons _ (.secret _) rest => strLeavesList rest
  | .cons _ (.record fields) rest => strLeavesList fields ++ strLeavesList rest
end

/-! ### The Key Flattener (config.go lines 151-168)

`getFlattenedStructKeys` turns the destination struct's shape into the
set of dot-separated leaf key paths via the external mapstructure and
flatten libraries.  The struct shape: -/

mutual
/-- The declared shape of a destination structure: a scalar leaf, a
nested record, or an ordered (slice) / keyed (map) container of an
element shape. -/
inductive Shape where
  | leaf
  | record (fields : ShapeList)
  | sliceOf (elem : Shape)
  | mapOf (elem : Shape)
  deriving Repr, DecidableEq

/-- The named field shapes of a record, in declaration order. -/
inductive ShapeList where
  | nil
  | cons (name : String) (s : Shape) (rest : ShapeList)
  deriving Repr, DecidableEq
end

/-- Extend a dot-separated key path by one component, the way the
flatten library builds `prefix + separator + key` (no separator after
the empty top-level prefix). -/
def extendKey (pre : String) (name : String) : String :=
  if pre = "" then name else pre ++ "." ++ name

mutual
/-- Modelled from the spec: the flattening recursion of
`getFlattenedStructKeys` (mapstructure.Decode into a map, then
flatten.Flatten with DotStyle), threading the accumulated dot-separated
key path and recursing into nested records and into the element shapes
of slice and map containers. -/
def flattenShape (pre : String) : Shape → List String
  | .leaf => [pre]
  | .record fields => flattenShapeList pre fields
  | .sliceOf e => flattenShape pre e
  | .mapOf e => flattenShape pre e

/-- Field-wise flattening of a record's shape. -/
def flattenShapeList (pre : String) : ShapeList → List String
  | .nil => []
  | .cons n s rest => flattenShape (extendKey pre n) s ++ flattenShapeList pre rest
end

/-- `getFlattenedStructKeys` on a destination struct shape: flatten with
the empty top-level path. -/
def getFlattenedStructKeys (fields : ShapeList) : List String :=
  flattenShapeList "" fields

mutual
/-- The spec's description of the flattener's output, stated
independently: the complete set of leaf field paths, each path the list
of field names on the way to the leaf, recursing into nested records
and into container element shapes. -/
def leafPaths : Shape → List (List String)
  | .leaf => [[]]
  | .record fields => leafPathsList fields
  | .sliceOf e => leafPaths e
  | .mapOf e => leafPaths e

/-- Field-wise leaf paths of a record shape, each prefixed with the
field's name. -/
def leafPathsList : ShapeList → List (List String)
  | .nil => []
  | .cons n s rest => (leafPaths s).map (n :: ·) ++ leafPathsList rest
end

/-- Join path components with "." as the separator. -/
def dotJoin : List String → String
  | [] => ""
  | [c] => c
  | c :: c' :: cs => c ++ "." ++ dotJoin (c' :: cs)

mutual
/-- Every field name in a shape is nonempty. -/
def namesNonEmpty : Shape → Bool
  | .leaf => true
  | .record fields => namesNonEmptyList fields
  | .sliceOf e => namesNonEmpty e
  | .mapOf e => namesNonEmpty e

/-- Field-wise `namesNonEmpty`. -/
def namesNonEmptyList : ShapeList → Bool
  | .nil => true
  | .cons n s rest => (n != "") && namesNonEmpty s && namesNonEmptyList rest
end

end Salt

namespace Salt

/-! ## Small facts about the Load model -/

/-- Applying a default never changes a field's key. -/
theorem setDefaultsField_key (f : LoadField) : (setDefaultsField f).key = f.key := by
  unfold setDefaultsField
  rcases f with ⟨k, c, d⟩
  cases d
  · simp
  · simp
    split <;> rfl

/-- A field with a non-zero current value is untouched by the defaults
step. -/
theorem setDefaultsField_of_ne (f : LoadField) (h : f.cur ≠ "") :
    setDefaultsField f = f := by
  unfold setDefaultsField
  cases f.dflt <;> simp [h]

/-- A zero-valued field with a declared default receives the default. -/
theorem setDefaultsField_of_zero (f : LoadField) (d : String)
    (hc : f.cur = "") (hd : f.dflt = some d) :
    setDefaultsField f = { f with cur := d } := by
  unfold setDefaultsField
  rw [hd]
  simp [hc]

end Salt

namespace Salt

/-! ## Claim C3: SecretString display and unmask -/

/-- C3: for every underlying string `s`, the display conversion of
`SecretString(s)` returns the fixed masking token (sixteen asterisks),
independently of `s`, and the explicit unmask operation `Secret` returns
exactly `s`. -/
theorem secretString_display_and_secret (s : String) :
    (SecretString.mk s).string = maskToken ∧
    maskToken.data = List.replicate 16 '*' ∧
    (SecretString.mk s).Secret = s ∧
    (∀ s' : String, (SecretString.mk s).string = (SecretString.mk s').string) :=
  ⟨rfl, by decide, rfl, fun _ => rfl⟩

/-! ## Claim C5: the Decode hook chain -/

/-- C5: `Decode` installs exactly the three hooks string-to-duration,
comma-splitting string-to-slice, and secret masking, in that fixed
order; the composed hook at source and target type `SecretString` yields
the fixed masking token; and the secret-masking hook returns its input
unchanged in every source/target combination in which the two types are
not both `SecretString`. -/
theorem decode_hook_chain_spec :
    decodeHookChain =
      [StringToTimeDurationHookFunc, StringToSliceHookFunc ",",
        SecretStringMaskHookFunc] ∧
    (∀ s : SecretString,
      decodeHook .secretStringT .secretStringT (.secret s) = .ok (.str maskToken)) ∧
    (∀ f t : GoType, ∀ data : GoVal,
      ¬(f = .secretStringT ∧ t = .secretStringT) →
      SecretStringMaskHookFunc f t data = .ok data) := by
  refine ⟨rfl, fun s => rfl, fun f t data h => ?_⟩
  unfold SecretStringMaskHookFunc
  by_cases hf : f = .secretStringT
  · subst hf
    have ht : t ≠ .secretStringT := fun ht => h ⟨rfl, ht⟩
    simp [ht]
  · simp [hf]

/-- Witness for C5 at concrete inputs. -/
theorem decode_hook_chain_spec_witness :
    decodeHook .secretStringT .secretStringT (.secret ⟨"hunter2"⟩) =
      .ok (.str maskToken) ∧
    SecretStringMaskHookFunc .stringT .durationT (.str "30s") = .ok (.str "30s") :=
  ⟨decode_hook_chain_spec.2.1 ⟨"hunter2"⟩,
    decode_hook_chain_spec.2.2 .stringT .durationT (.str "30s") (by decide)⟩

/-! ## Claim C8: invalid arguments to Load -/

/-- C8: for a non-pointer argument or a pointer to a non-struct, `Load`
returns an `InvalidArgument` error naming the actual kind received, and
leaves both the destination and the Loader's provider state unchanged. -/
theorem load_invalid_argument (k : String) (st : LoaderState) (E : LoadEnv) :
    Load (.nonPtr k) st E =
      (.error (.invalidArgument ("require ptr to a struct for Load. Got " ++ k)),
        .nonPtr k, st) ∧
    Load (.ptrToOther k) st E =
      (.error (.invalidArgument ("require ptr to a struct for Load. got ptr to " ++ k)),
        .ptrToOther k, st) :=
  ⟨rfl, rfl⟩

/-! ## Claim C9: tolerated and fatal file-read outcomes -/

/-- C9: `Load` fails at the file-reading step exactly when reading the
file fails with an error other than file-not-found; such an error is
surfaced with its underlying cause; a missing file is tolerated and
resolution continues exactly as with an empty file. -/
theorem load_file_read_outcomes (fields : List LoadField) (st : LoaderState)
    (env : List (String × String)) :
    (∀ e, (Load (.ptrToStruct fields) st ⟨env, .readError e⟩).1 =
      .error (.sourceRead ("unable to read configs using viper: " ++ e))) ∧
    ((Load (.ptrToStruct fields) st ⟨env, .notFound⟩).1 = .ok ()) ∧
    (∀ vs, (Load (.ptrToStruct fields) st ⟨env, .found vs⟩).1 = .ok ()) ∧
    (Load (.ptrToStruct fields) st ⟨env, .notFound⟩ =
      Load (.ptrToStruct fields) st ⟨env, .found []⟩) ∧
    (∀ file, ((Load (.ptrToStruct fields) st ⟨env, file⟩).1 = .ok ()) ↔
      ∀ e, file ≠ .readError e) := by
  have hres : resolveField ⟨env, .notFound⟩ = resolveField ⟨env, .found []⟩ :=
    funext fun f => rfl
  refine ⟨fun e => rfl, rfl, fun vs => rfl, ?_, fun file => ?_⟩
  · show Prod.mk _ _ = Prod.mk _ _
    rw [hres]
  · cases file <;> simp [Load, verifyParamIsPtrToStructElsePanic]

/-! ## Claim C10: GetPrintable panics on non-pointer arguments -/

/-- C10: `GetPrintable` dereferences its argument without a kind check:
on any non-pointer argument it panics (as `reflect.Value.Elem` does),
whereas `Load` on the same kind of argument returns an `InvalidArgument`
error. -/
theorem getPrintable_nonptr_panics (k : String) (st : LoaderState) (E : LoadEnv) :
    GetPrintable (.nonPtr k) =
      .panicked ("reflect: call of reflect.Value.Elem on " ++ k ++ " Value") ∧
    (Load (.nonPtr k) st E).1 =
      .error (.invalidArgument ("require ptr to a struct for Load. Got " ++ k)) :=
  ⟨rfl, rfl⟩

end Salt

namespace Salt

/-- When the environment has the key, resolution takes the environment
value. -/
theorem resolveField_env (E : LoadEnv) (f : LoadField) (v : String)
    (h : E.env.lookup f.key = some v) :
    resolveField E f = { f with cur := v } := by
  unfold resolveField
  rw [h]

/-- When the environment lacks the key but the file has it, resolution
takes the file value. -/
theorem resolveField_file (E : LoadEnv) (f : LoadField) (v : String)
    (henv : E.env.lookup f.key = none) (hfile : E.file.vals.lookup f.key = some v) :
    resolveField E f = { f with cur := v } := by
  unfold resolveField
  rw [henv, hfile]

/-- When neither the environment nor the file has the key, resolution
keeps the field's current value. -/
theorem resolveField_neither (E : LoadEnv) (f : LoadField)
    (henv : E.env.lookup f.key = none) (hfile : E.file.vals.lookup f.key = none) :
    resolveField E f = f := by
  unfold resolveField
  rw [henv, hfile]

/-! ## Claim C2: precedence env > file > default -/

/-- C2: after a successful `Load`, a field set by multiple sources
resolves with precedence environment variable > file value > declared
default: when the environment has the key the result is the environment
value (whatever the file and default say), and when only the file and
the default have it the result is the file value.  The `Load` call in
question succeeds. -/
theorem load_precedence (fields : List LoadField) (st : LoaderState)
    (env fileVals : List (String × String)) (i : Nat) (d : String)
    (hi : i < fields.length)
    (_hd : fields[i].dflt = some d) :
    ((Load (.ptrToStruct fields) st ⟨env, .found fileVals⟩).1 = .ok ()) ∧
    (∀ ev, env.lookup fields[i].key = some ev →
      ((loadDest (Load (.ptrToStruct fields) st ⟨env, .found fileVals⟩))[i]?).map
        LoadField.cur = some ev) ∧
    (∀ fv, env.lookup fields[i].key = none →
      fileVals.lookup fields[i].key = some fv →
      ((loadDest (Load (.ptrToStruct fields) st ⟨env, .found fileVals⟩))[i]?).map
        LoadField.cur = some fv) := by
  have hdest : loadDest (Load (.ptrToStruct fields) st ⟨env, .found fileVals⟩)
      = (setDefaults fields).map (resolveField ⟨env, .found fileVals⟩) := rfl
  have hkey : (setDefaultsField fields[i]).key = fields[i].key :=
    setDefaultsField_key _
  refine ⟨rfl, fun ev hev => ?_, fun fv henv hfv => ?_⟩
  · rw [hdest, setDefaults, List.getElem?_map, List.getElem?_map,
      List.getElem?_eq_getElem hi]
    simp only [Option.map_some']
    rw [resolveField_env _ _ ev (by rw [hkey]; exact hev)]
  · rw [hdest, setDefaults, List.getElem?_map, List.getElem?_map,
      List.getElem?_eq_getElem hi]
    simp only [Option.map_some']
    rw [resolveField_file _ _ fv (by rw [hkey]; exact henv)
      (by rw [hkey]; exact hfv)]

/-- Witness for C2 at concrete inputs: with default "dflt", file value
"filev" and environment value "envv" all present the result is "envv";
with the environment empty it is "filev". -/
theorem load_precedence_witness :
    ((loadDest (Load (.ptrToStruct [⟨"host", "", some "dflt"⟩]) ⟨false, []⟩
      ⟨[("host", "envv")], .found [("host", "filev")]⟩))[0]?).map
        LoadField.cur = some "envv" ∧
    ((loadDest (Load (.ptrToStruct [⟨"host", "", some "dflt"⟩]) ⟨false, []⟩
      ⟨[], .found [("host", "filev")]⟩))[0]?).map
        LoadField.cur = some "filev" :=
  ⟨(load_precedence [⟨"host", "", some "dflt"⟩] ⟨false, []⟩
      [("host", "envv")] [("host", "filev")] 0 "dflt"
      (by decide) rfl).2.1 "envv" rfl,
    (load_precedence [⟨"host", "", some "dflt"⟩] ⟨false, []⟩
      [] [("host", "filev")] 0 "dflt"
      (by decide) rfl).2.2 "filev" rfl rfl⟩

/-! ## Claim C4: defaults only overwrite zero values -/

/-- C4: during `Load`, the defaults step writes a declared default into
a field only when the field's current value is the zero value: a field
with a non-zero value is left exactly as it is by the defaults step, a
zero-valued field with a declared default receives the default, and a
non-zero field with no environment or file value for its key keeps its
user-supplied value through the whole `Load`. -/
theorem load_defaults_only_zero (fields : List LoadField) (st : LoaderState)
    (env : List (String × String)) (i : Nat) (d : String)
    (hi : i < fields.length) :
    (fields[i].cur ≠ "" → (setDefaults fields)[i]? = some fields[i]) ∧
    (fields[i].cur = "" → fields[i].dflt = some d →
      ((setDefaults fields)[i]?).map LoadField.cur = some d) ∧
    (env.lookup fields[i].key = none → fields[i].cur ≠ "" →
      ((loadDest (Load (.ptrToStruct fields) st ⟨env, .notFound⟩))[i]?).map
        LoadField.cur = some fields[i].cur) := by
  refine ⟨fun hne => ?_, fun hz hd => ?_, fun henv hne => ?_⟩
  · rw [setDefaults, List.getElem?_map, List.getElem?_eq_getElem hi,
      Option.map_some', setDefaultsField_of_ne _ hne]
  · rw [setDefaults, List.getElem?_map, List.getElem?_eq_getElem hi,
      Option.map_some', setDefaultsField_of_zero _ d hz hd]
    rfl
  · have hdest : loadDest (Load (.ptrToStruct fields) st ⟨env, .notFound⟩)
        = (setDefaults fields).map (resolveField ⟨env, .notFound⟩) := rfl
    rw [hdest, setDefaults, List.getElem?_map, List.getElem?_map,
      List.getElem?_eq_getElem hi]
    simp only [Option.map_some']
    rw [setDefaultsField_of_ne _ hne,
      resolveField_neither _ _ henv (by rfl)]

/-- Witness for C4 at concrete inputs: a field explicitly set to "keep"
is not overwritten by its default "dflt" and survives a `Load` with no
matching sources; a zero-valued field receives its default. -/
theorem load_defaults_only_zero_witness :
    (setDefaults [⟨"host", "keep", some "dflt"⟩])[0]? =
      some ⟨"host", "keep", some "dflt"⟩ ∧
    ((setDefaults [⟨"port", "", some "8080"⟩])[0]?).map LoadField.cur =
      some "8080" ∧
    ((loadDest (Load (.ptrToStruct [⟨"host", "keep", some "dflt"⟩]) ⟨false, []⟩
      ⟨[], .notFound⟩))[0]?).map LoadField.cur = some "keep" :=
  ⟨(load_defaults_only_zero [⟨"host", "keep", some "dflt"⟩] ⟨false, []⟩
      [] 0 "dflt" (by decide)).1 (by decide),
    (load_defaults_only_zero [⟨"port", "", some "8080"⟩] ⟨false, []⟩
      [] 0 "8080" (by decide)).2.1 rfl rfl,
    (load_defaults_only_zero [⟨"host", "keep", some "dflt"⟩] ⟨false, []⟩
      [] 0 "dflt" (by decide)).2.2 rfl (by decide)⟩

end Salt

namespace Salt

/-! ## Claim C6: the Key Flattener -/

/-- Fold a whole component path onto an accumulated dot-separated key. -/
def extendAll (pre : String) (p : List String) : String :=
  p.foldl extendKey pre

/-- A dot-extended key is never empty. -/
theorem extendKey_dot_ne (a b : String) : a ++ "." ++ b ≠ "" := by
  intro h
  have hd := congrArg String.data h
  simp only [String.data_append] at hd
  cases (List.append_eq_nil.mp (List.append_eq_nil.mp hd).1).2

mutual
/-- The string-threading flattening recursion produces exactly the leaf
paths, each folded onto the accumulated prefix. -/
theorem flattenShape_eq : ∀ (s : Shape) (pre : String),
    flattenShape pre s = (leafPaths s).map (extendAll pre)
  | .leaf, _ => rfl
  | .record fs, pre => flattenShapeList_eq fs pre
  | .sliceOf e, pre => flattenShape_eq e pre
  | .mapOf e, pre => flattenShape_eq e pre

/-- Field-wise version of `flattenShape_eq`. -/
theorem flattenShapeList_eq : ∀ (fs : ShapeList) (pre : String),
    flattenShapeList pre fs = (leafPathsList fs).map (extendAll pre)
  | .nil, _ => rfl
  | .cons n s rest, pre => by
    show flattenShape (extendKey pre n) s ++ flattenShapeList pre rest
      = ((leafPaths s).map (n :: ·) ++ leafPathsList rest).map (extendAll pre)
    rw [List.map_append, List.map_map, flattenShape_eq s (extendKey pre n),
      flattenShapeList_eq rest pre]
    rfl
end

/-- Prepending a dot-joined component to a nonempty path distributes
over `dotJoin`. -/
theorem dotJoin_dot_cons (a b : String) : ∀ t : List String,
    dotJoin ((a ++ "." ++ b) :: t) = a ++ "." ++ dotJoin (b :: t)
  | [] => rfl
  | c :: t => by
    show (a ++ "." ++ b) ++ "." ++ dotJoin (c :: t)
      = a ++ "." ++ (b ++ "." ++ dotJoin (c :: t))
    apply String.ext
    simp only [String.data_append, List.append_assoc]

/-- Folding components onto a nonempty accumulated key equals the
dot-join of the key followed by the components. -/
theorem extendAll_eq_dotJoin : ∀ (p : List String) (c : String), c ≠ "" →
    extendAll c p = dotJoin (c :: p)
  | [], c, _ => rfl
  | c' :: p', c, hc => by
    show extendAll (extendKey c c') p' = dotJoin (c :: c' :: p')
    rw [show extendKey c c' = c ++ "." ++ c' from if_neg hc]
    rw [extendAll_eq_dotJoin p' (c ++ "." ++ c') (extendKey_dot_ne c c')]
    exact dotJoin_dot_cons c c' p'

/-- With nonempty top-level field names, every leaf path starts with a
nonempty component. -/
theorem leafPathsList_head_ne : ∀ (fs : ShapeList), namesNonEmptyList fs = true →
    ∀ p ∈ leafPathsList fs, ∃ c p', p = c :: p' ∧ c ≠ ""
  | .nil, _, p, hp => absurd hp (by simp [leafPathsList])
  | .cons n s rest, h, p, hp => by
    rw [namesNonEmptyList, Bool.and_eq_true, Bool.and_eq_true] at h
    obtain ⟨⟨hn, _⟩, hrest⟩ := h
    rcases List.mem_append.mp hp with hmem | hmem
    · obtain ⟨q, _, rfl⟩ := List.mem_map.mp hmem
      exact ⟨n, q, rfl, by simpa using hn⟩
    · exact leafPathsList_head_ne rest hrest p hmem

/-- C6: for every destination structure shape (with nonempty field
names), `getFlattenedStructKeys` produces exactly the complete set of
leaf field paths joined with "." as the separator, recursing into
nested records and into the element shapes of ordered (slice) and
keyed (map) containers. -/
theorem flattened_keys_are_leaf_paths (fields : ShapeList)
    (h : namesNonEmptyList fields = true) :
    getFlattenedStructKeys fields = (leafPathsList fields).map dotJoin := by
  rw [getFlattenedStructKeys, flattenShapeList_eq]
  refine List.map_congr_left fun p hp => ?_
  obtain ⟨c, p', rfl, hc⟩ := leafPathsList_head_ne fields h p hp
  show extendAll (extendKey "" c) p' = dotJoin (c :: p')
  rw [show extendKey "" c = c from if_pos rfl]
  exact extendAll_eq_dotJoin p' c hc

/-- Witness for C6 on a concrete shape with a nested record, a slice of
records and a keyed container. -/
theorem flattened_keys_are_leaf_paths_witness :
    getFlattenedStructKeys
      (.cons "database"
        (.record (.cons "host" .leaf (.cons "port" .leaf .nil)))
        (.cons "replicas" (.sliceOf (.record (.cons "url" .leaf .nil)))
          (.cons "labels" (.mapOf .leaf) .nil))) =
      ["database.host", "database.port", "replicas.url", "labels"] := by
  rw [flattened_keys_are_leaf_paths _ (by decide)]
  rfl

end Salt

namespace Salt

/-! ## A toolkit for substring (list-infix) reasoning

`pat <:+: l` is "the byte pattern `pat` occurs contiguously in `l`".
The serialized JSON output interleaves its atoms with structural
characters; a pattern containing none of those characters can only occur
inside a single atom. -/

/-- A pattern that avoids a character `c` and is a prefix of
`l₁ ++ c :: l₂` is already a prefix of `l₁`. -/
theorem isPrefixSplit {α : Type} {c : α} :
    ∀ {l₁ : List α} {pat l₂ : List α}, c ∉ pat → pat <+: l₁ ++ c :: l₂ → pat <+: l₁
  | [], pat, l₂, hc, h => by
    rcases List.prefix_cons_iff.mp h with rfl | ⟨t, rfl, _⟩
    · exact List.nil_prefix
    · exact absurd (List.mem_cons_self c t) hc
  | a :: l₁, pat, l₂, hc, h => by
    rcases List.prefix_cons_iff.mp h with rfl | ⟨t, rfl, ht⟩
    · exact List.nil_prefix
    · have := isPrefixSplit (fun hm => hc (List.mem_cons_of_mem a hm)) ht
      exact List.cons_prefix_cons.mpr ⟨rfl, this⟩

/-- A pattern avoiding `c` that occurs in `l₁ ++ c :: l₂` occurs in `l₁`
or in `l₂`. -/
theorem isInfixSplit {α : Type} {c : α} :
    ∀ {l₁ : List α} {pat l₂ : List α}, c ∉ pat → pat <:+: l₁ ++ c :: l₂ →
      pat <:+: l₁ ∨ pat <:+: l₂
  | [], pat, l₂, hc, h => by
    rcases List.infix_cons_iff.mp h with hp | hi
    · rcases List.prefix_cons_iff.mp hp with rfl | ⟨t, rfl, _⟩
      · exact Or.inl List.nil_infix
      · exact absurd (List.mem_cons_self c t) hc
    · exact Or.inr hi
  | a :: l₁, pat, l₂, hc, h => by
    rcases List.infix_cons_iff.mp h with hp | hi
    · exact Or.inl (isPrefixSplit hc hp).isInfix
    · rcases isInfixSplit hc hi with h' | h'
      · exact Or.inl (List.infix_cons h')
      · exact Or.inr h'

/-- A pattern avoiding `c` that occurs in `c :: l` occurs in `l`. -/
theorem isInfixConsElim {α : Type} {c : α} {pat l : List α}
    (hc : c ∉ pat) (h : pat <:+: c :: l) : pat <:+: l := by
  rcases @isInfixSplit α c [] pat l hc h with h' | h'
  · rw [List.infix_nil.mp h']
    exact List.nil_infix
  · exact h'

/-- Occurrence in the right part of an append is occurrence in the
whole. -/
theorem isInfixAppendLeft {α : Type} {pat l₂ : List α} (l₁ : List α)
    (h : pat <:+: l₂) : pat <:+: l₁ ++ l₂ := by
  obtain ⟨s, t, rfl⟩ := h
  exact ⟨l₁ ++ s, t, by simp [List.append_assoc]⟩

/-- A nonempty pattern whose head avoids `c` does not occur in
`List.replicate n c`. -/
theorem notInfixReplicate {α : Type} {pat : List α} {c : α} {n : Nat}
    (hne : pat ≠ []) (hc : c ∉ pat) : ¬ pat <:+: List.replicate n c := by
  intro h
  match pat, hne with
  | p :: t, _ =>
    have hp : p ∈ List.replicate n c := h.subset (List.mem_cons_self p t)
    exact hc (List.eq_of_mem_replicate hp ▸ List.mem_cons_self p t)

/-- The pattern avoids every structural character of the JSON rendering:
quote, backslash, braces, colon, comma, space, newline. -/
def jsonSafe (pat : List Char) : Prop :=
  '"' ∉ pat ∧ '\\' ∉ pat ∧ '{' ∉ pat ∧ '}' ∉ pat ∧
    ':' ∉ pat ∧ ',' ∉ pat ∧ ' ' ∉ pat ∧ '\n' ∉ pat

instance (pat : List Char) : Decidable (jsonSafe pat) := by
  unfold jsonSafe
  infer_instance

/-- JSON escaping inserts no occurrence of a pattern that avoids quote
and backslash: prefix version. -/
theorem isPrefixEscStr {pat : List Char} (hq : '"' ∉ pat) (hb : '\\' ∉ pat) :
    ∀ {s : List Char}, pat <+: escStr s → pat <+: s
  | [], h => h
  | c :: s, h => by
    by_cases hcq : c = '"'
    · rw [escStr, escChar, if_pos hcq] at h
      rcases List.prefix_cons_iff.mp h with rfl | ⟨t, rfl, _⟩
      · exact List.nil_prefix
      · exact absurd (List.mem_cons_self _ t) hb
    · by_cases hcb : c = '\\'
      · rw [escStr, escChar, if_neg hcq, if_pos hcb] at h
        rcases List.prefix_cons_iff.mp h with rfl | ⟨t, rfl, _⟩
        · exact List.nil_prefix
        · exact absurd (List.mem_cons_self _ t) hb
      · rw [escStr, escChar, if_neg hcq, if_neg hcb, List.singleton_append] at h
        rcases List.prefix_cons_iff.mp h with rfl | ⟨t, rfl, ht⟩
        · exact List.nil_prefix
        · exact List.cons_prefix_cons.mpr
            ⟨rfl, isPrefixEscStr (fun hm => hq (List.mem_cons_of_mem c hm))
              (fun hm => hb (List.mem_cons_of_mem c hm)) ht⟩

/-- JSON escaping inserts no occurrence of a pattern that avoids quote
and backslash: infix version. -/
theorem isInfixEscStr {pat : List Char} (hq : '"' ∉ pat) (hb : '\\' ∉ pat) :
    ∀ {s : List Char}, pat <:+: escStr s → pat <:+: s
  | [], h => h
  | c :: s, h => by
    by_cases hcq : c = '"'
    · rw [escStr, escChar, if_pos hcq] at h
      subst hcq
      exact List.infix_cons (isInfixEscStr hq hb (isInfixConsElim hq (isInfixConsElim hb h)))
    · by_cases hcb : c = '\\'
      · rw [escStr, escChar, if_neg hcq, if_pos hcb] at h
        subst hcb
        exact List.infix_cons (isInfixEscStr hq hb (isInfixConsElim hb (isInfixConsElim hb h)))
      · rw [escStr, escChar, if_neg hcq, if_neg hcb, List.singleton_append] at h
        rcases List.infix_cons_iff.mp h with hp | hi
        · rcases List.prefix_cons_iff.mp hp with rfl | ⟨t, rfl, ht⟩
          · exact List.nil_infix
          · exact (List.cons_prefix_cons.mpr
              ⟨rfl, isPrefixEscStr (fun hm => hq (List.mem_cons_of_mem c hm))
                (fun hm => hb (List.mem_cons_of_mem c hm)) ht⟩).isInfix
        · exact List.infix_cons (isInfixEscStr hq hb hi)

end Salt

namespace Salt

/-! ## Cleanliness of structure atoms w.r.t. a pattern -/

mutual
/-- The input-side cleanliness hypothesis: no field name and no
non-secret string value contains the pattern (secret values are
unconstrained — masking must handle them). -/
def cleanVal (pat : List Char) : FieldVal → Bool
  | .str s => !(decide (pat <:+: s.data))
  | .secret _ => true
  | .record fields => cleanList pat fields

/-- Field-wise `cleanVal`, also requiring clean field names. -/
def cleanList (pat : List Char) : FieldList → Bool
  | .nil => true
  | .cons n v rest =>
    !(decide (pat <:+: n.data)) && cleanVal pat v && cleanList pat rest
end

mutual
/-- Full cleanliness: every serialized atom, secret values included,
avoids the pattern (this is what holds after masking). -/
def cleanValFull (pat : List Char) : FieldVal → Bool
  | .str s => !(decide (pat <:+: s.data))
  | .secret s => !(decide (pat <:+: s.val.data))
  | .record fields => cleanListFull pat fields

/-- Field-wise `cleanValFull`. -/
def cleanListFull (pat : List Char) : FieldList → Bool
  | .nil => true
  | .cons n v rest =>
    !(decide (pat <:+: n.data)) && cleanValFull pat v && cleanListFull pat rest
end

mutual
/-- A fully clean structure serializes to bytes in which a nonempty,
JSON-safe pattern does not occur. -/
theorem serValClean (pat : List Char) (hs : jsonSafe pat) (hne : pat ≠ []) :
    ∀ (v : FieldVal) (depth : Nat), cleanValFull pat v = true →
      ¬ pat <:+: serVal depth v
  | .str s, depth, hc, h => by
    obtain ⟨hq, hb, _, _, _, _, _, _⟩ := hs
    rw [serVal] at h
    rw [cleanValFull, Bool.not_eq_true', decide_eq_false_iff_not] at hc
    rcases isInfixSplit hq (isInfixConsElim hq h) with h2 | h2
    · exact hc (isInfixEscStr hq hb h2)
    · exact hne (List.infix_nil.mp h2)
  | .secret s, depth, hc, h => by
    obtain ⟨hq, hb, _, _, _, _, _, _⟩ := hs
    rw [serVal] at h
    rw [cleanValFull, Bool.not_eq_true', decide_eq_false_iff_not] at hc
    rcases isInfixSplit hq (isInfixConsElim hq h) with h2 | h2
    · exact hc (isInfixEscStr hq hb h2)
    · exact hne (List.infix_nil.mp h2)
  | .record fields, depth, hc, h => by
    obtain ⟨hq, hb, hlb, hrb, hcol, hcom, hsp, hnl⟩ := hs
    rw [cleanValFull] at hc
    cases fields with
    | nil =>
      rw [serVal] at h
      exact hne (List.infix_nil.mp (isInfixConsElim hrb (isInfixConsElim hlb h)))
    | cons n v rest =>
      rw [serVal] at h
      have h1 := isInfixConsElim hnl (isInfixConsElim hlb h)
      rcases isInfixSplit hnl h1 with h2 | h2
      · exact serFieldsClean pat ⟨hq, hb, hlb, hrb, hcol, hcom, hsp, hnl⟩ hne
          (.cons n v rest) (depth + 1) hc h2
      · rcases isInfixSplit hrb h2 with h3 | h3
        · exact notInfixReplicate hne hsp h3
        · exact hne (List.infix_nil.mp h3)

/-- Field-wise version of `serValClean`. -/
theorem serFieldsClean (pat : List Char) (hs : jsonSafe pat) (hne : pat ≠ []) :
    ∀ (fs : FieldList) (depth : Nat), cleanListFull pat fs = true →
      ¬ pat <:+: serFields depth fs
  | .nil, _, _, h => by
    rw [serFields] at h
    exact hne (List.infix_nil.mp h)
  | .cons n v .nil, depth, hc, h => by
    obtain ⟨hq, hb, hlb, hrb, hcol, hcom, hsp, hnl⟩ := hs
    rw [serFields] at h
    rw [cleanListFull, Bool.and_eq_true, Bool.and_eq_true] at hc
    obtain ⟨⟨hcn, hcv⟩, -⟩ := hc
    rw [Bool.not_eq_true', decide_eq_false_iff_not] at hcn
    rcases isInfixSplit hq h with h1 | h1
    · exact notInfixReplicate hne hsp h1
    · rcases isInfixSplit hq h1 with h2 | h2
      · exact hcn (isInfixEscStr hq hb h2)
      · exact serValClean pat ⟨hq, hb, hlb, hrb, hcol, hcom, hsp, hnl⟩ hne
          v depth hcv (isInfixConsElim hsp (isInfixConsElim hcol h2))
  | .cons n v (.cons n' v' rest), depth, hc, h => by
    obtain ⟨hq, hb, hlb, hrb, hcol, hcom, hsp, hnl⟩ := hs
    rw [serFields] at h
    rw [cleanListFull, Bool.and_eq_true, Bool.and_eq_true] at hc
    obtain ⟨⟨hcn, hcv⟩, hcrest⟩ := hc
    rw [Bool.not_eq_true', decide_eq_false_iff_not] at hcn
    rcases isInfixSplit hq h with h1 | h1
    · exact notInfixReplicate hne hsp h1
    · rcases isInfixSplit hq h1 with h2 | h2
      · exact hcn (isInfixEscStr hq hb h2)
      · have h3 := isInfixConsElim hsp (isInfixConsElim hcol h2)
        rcases isInfixSplit hcom h3 with h4 | h4
        · exact serValClean pat ⟨hq, hb, hlb, hrb, hcol, hcom, hsp, hnl⟩ hne
            v depth hcv h4
        · exact serFieldsClean pat ⟨hq, hb, hlb, hrb, hcol, hcom, hsp, hnl⟩ hne
            (.cons n' v' rest) depth hcrest (isInfixConsElim hnl h4)
end

/-- Object-level version of `serValClean`. -/
theorem serObjClean (pat : List Char) (hs : jsonSafe pat) (hne : pat ≠ [])
    (fs : FieldList) (depth : Nat) (hc : cleanListFull pat fs = true) :
    ¬ pat <:+: serObj depth fs := by
  intro h
  obtain ⟨hq, hb, hlb, hrb, hcol, hcom, hsp, hnl⟩ := hs
  cases fs with
  | nil =>
    rw [serObj] at h
    exact hne (List.infix_nil.mp (isInfixConsElim hrb (isInfixConsElim hlb h)))
  | cons n v rest =>
    rw [serObj] at h
    have h1 := isInfixConsElim hnl (isInfixConsElim hlb h)
    rcases isInfixSplit hnl h1 with h2 | h2
    · exact serFieldsClean pat ⟨hq, hb, hlb, hrb, hcol, hcom, hsp, hnl⟩ hne
        (.cons n v rest) (depth + 1) hc h2
    · rcases isInfixSplit hrb h2 with h3 | h3
      · exact notInfixReplicate hne hsp h3
      · exact hne (List.infix_nil.mp h3)

end Salt

namespace Salt

/-! ## Effects of the masking decode step -/

mutual
/-- Masking turns an input-clean structure into a fully clean one,
provided the mask token itself avoids the pattern. -/
theorem decodeMaskCleanVal (pat : List Char) (hm : ¬ pat <:+: maskToken.data) :
    ∀ v : FieldVal, cleanVal pat v = true →
      cleanValFull pat (decodeMapToStruct v) = true
  | .str s, hc => by
    rw [decodeMapToStruct, cleanValFull]
    rw [cleanVal] at hc
    exact hc
  | .secret s, _ => by
    rw [decodeMapToStruct, cleanValFull]
    rw [show (⟨SecretString.string s⟩ : SecretString).val = maskToken from rfl]
    rw [Bool.not_eq_true', decide_eq_false_iff_not]
    exact hm
  | .record fields, hc => by
    rw [decodeMapToStruct, cleanValFull]
    rw [cleanVal] at hc
    exact decodeMaskCleanList pat hm fields hc

/-- Field-wise version of `decodeMaskCleanVal`. -/
theorem decodeMaskCleanList (pat : List Char) (hm : ¬ pat <:+: maskToken.data) :
    ∀ fs : FieldList, cleanList pat fs = true →
      cleanListFull pat (decodeMapToStructList fs) = true
  | .nil, _ => rfl
  | .cons n v rest, hc => by
    rw [decodeMapToStructList, cleanListFull, Bool.and_eq_true, Bool.and_eq_true]
    rw [cleanList, Bool.and_eq_true, Bool.and_eq_true] at hc
    obtain ⟨⟨hcn, hcv⟩, hcrest⟩ := hc
    exact ⟨⟨hcn, decodeMaskCleanVal pat hm v hcv⟩,
      decodeMaskCleanList pat hm rest hcrest⟩
end

/-- Masking preserves every non-secret string leaf (name and value). -/
theorem strLeavesListMask :
    ∀ fs : FieldList, strLeavesList (decodeMapToStructList fs) = strLeavesList fs
  | .nil => rfl
  | .cons n (.str s) rest => by
    rw [decodeMapToStructList, decodeMapToStruct, strLeavesList, strLeavesList,
      strLeavesListMask rest]
  | .cons n (.secret s) rest => by
    rw [decodeMapToStructList, decodeMapToStruct, strLeavesList, strLeavesList,
      strLeavesListMask rest]
  | .cons n (.record f) rest => by
    rw [decodeMapToStructList, decodeMapToStruct, strLeavesList, strLeavesList,
      strLeavesListMask rest, strLeavesListMask f]

mutual
/-- On a structure without secret fields the masking decode step is the
identity. -/
theorem decodeMaskIdVal : ∀ v : FieldVal, hasSecretField v = false →
    decodeMapToStruct v = v
  | .str _, _ => rfl
  | .secret _, h => by rw [hasSecretField] at h; cases h
  | .record f, h => by
    rw [hasSecretField] at h
    rw [decodeMapToStruct, decodeMaskIdList f h]

/-- Field-wise version of `decodeMaskIdVal`. -/
theorem decodeMaskIdList : ∀ fs : FieldList, hasSecretFieldList fs = false →
    decodeMapToStructList fs = fs
  | .nil, _ => rfl
  | .cons n v rest, h => by
    rw [hasSecretFieldList, Bool.or_eq_false_iff] at h
    rw [decodeMapToStructList, decodeMaskIdVal v h.1, decodeMaskIdList rest h.2]
end

mutual
/-- A structure containing a secret field with value `s` contains a
secret field. -/
theorem hasSecretValField (s : String) :
    ∀ v : FieldVal, hasSecretVal s v = true → hasSecretField v = true
  | .secret _, _ => rfl
  | .str _, h => by rw [hasSecretVal] at h; cases h
  | .record f, h => by
    rw [hasSecretVal] at h
    rw [hasSecretField]
    exact hasSecretValFieldList s f h

/-- Field-wise version of `hasSecretValField`. -/
theorem hasSecretValFieldList (s : String) :
    ∀ fs : FieldList, hasSecretValList s fs = true → hasSecretFieldList fs = true
  | .cons n v rest, h => by
    rw [hasSecretValList, Bool.or_eq_true] at h
    rw [hasSecretFieldList, Bool.or_eq_true]
    rcases h with h | h
    · exact Or.inl (hasSecretValField s v h)
    · exact Or.inr (hasSecretValFieldList s rest h)
  | .nil, h => by rw [hasSecretValList] at h; cases h
end

/-- The mask token contains no JSON-escaped characters. -/
theorem escStrMask : escStr maskToken.data = maskToken.data := by decide

/-- Occurrence in a list is occurrence after appending on the right. -/
theorem isInfixAppendRight {α : Type} {pat l₁ : List α} (l₂ : List α)
    (h : pat <:+: l₁) : pat <:+: l₁ ++ l₂ := by
  obtain ⟨s, t, rfl⟩ := h
  exact ⟨s, t ++ l₂, by simp [List.append_assoc]⟩

/-- Embedding an occurrence inside one serialized field of an object. -/
theorem maskFieldEmbed (pat : List Char) (depth : Nat) (n : String)
    (X : List Char) (h : pat <:+: X) :
    pat <:+: indentChars depth ++
      ('"' :: (escStr n.data ++ '"' :: ':' :: ' ' :: X)) := by
  apply isInfixAppendLeft
  apply List.infix_cons
  apply isInfixAppendLeft
  exact List.infix_cons (List.infix_cons (List.infix_cons h))

mutual
/-- After masking, a structure that contained a secret field serializes
to bytes containing the mask token. -/
theorem maskInSerVal : ∀ (v : FieldVal) (depth : Nat), hasSecretField v = true →
    maskToken.data <:+: serVal depth (decodeMapToStruct v)
  | .secret s, depth, _ => by
    rw [decodeMapToStruct, serVal]
    rw [show (⟨SecretString.string s⟩ : SecretString).val = maskToken from rfl,
      escStrMask]
    exact ⟨['"'], ['"'], rfl⟩
  | .str _, _, h => by rw [hasSecretField] at h; cases h
  | .record f, depth, h => by
    rw [hasSecretField] at h
    rw [decodeMapToStruct]
    cases f with
    | nil => rw [hasSecretFieldList] at h; cases h
    | cons n v rest =>
      have hm := maskInSerFields (.cons n v rest) (depth + 1) h
      rw [decodeMapToStructList] at hm ⊢
      rw [serVal]
      exact List.infix_cons (List.infix_cons (isInfixAppendRight _ hm))

/-- Field-wise version of `maskInSerVal`. -/
theorem maskInSerFields :
    ∀ (fs : FieldList) (depth : Nat), hasSecretFieldList fs = true →
      maskToken.data <:+: serFields depth (decodeMapToStructList fs)
  | .nil, _, h => by rw [hasSecretFieldList] at h; cases h
  | .cons n v .nil, depth, h => by
    rw [hasSecretFieldList, hasSecretFieldList, Bool.or_eq_true] at h
    rw [decodeMapToStructList, decodeMapToStructList, serFields]
    rcases h with h | h
    · exact maskFieldEmbed _ depth n _ (maskInSerVal v depth h)
    · cases h
  | .cons n v (.cons n' v' rest), depth, h => by
    rw [hasSecretFieldList, Bool.or_eq_true] at h
    rw [decodeMapToStructList, decodeMapToStructList, serFields]
    rcases h with h | h
    · exact maskFieldEmbed _ depth n _
        (isInfixAppendRight _ (maskInSerVal v depth h))
    · have hm := maskInSerFields (.cons n' v' rest) depth h
      rw [decodeMapToStructList] at hm
      exact maskFieldEmbed _ depth n _
        (isInfixAppendLeft _ (List.infix_cons (List.infix_cons hm)))
end

/-- Object-level version of `maskInSerVal`. -/
theorem maskInSerObj (fs : FieldList) (depth : Nat)
    (h : hasSecretFieldList fs = true) :
    maskToken.data <:+: serObj depth (decodeMapToStructList fs) := by
  cases fs with
  | nil => rw [hasSecretFieldList] at h; cases h
  | cons n v rest =>
    have hm := maskInSerFields (.cons n v rest) (depth + 1) h
    rw [decodeMapToStructList] at hm ⊢
    rw [serObj]
    exact List.infix_cons (List.infix_cons (isInfixAppendRight _ hm))

end Salt

namespace Salt

/-! ## Claims C1 and C7: GetPrintable redaction and round-trip -/

/-- The byte pattern "hunter2". -/
def hunter2 : List Char := ['h', 'u', 'n', 't', 'e', 'r', '2']

/-- A structure with a secret field "hunter2" and a non-secret field
whose value is also "hunter2". -/
def cexCfg : FieldList :=
  .cons "password" (.secret ⟨"hunter2"⟩)
    (.cons "note" (.str "hunter2") .nil)

/-- Counterexample to C1 as stated: `cexCfg` contains a
`SecretString`-typed field whose underlying value is "hunter2", yet the
byte output of `GetPrintable` does contain the substring "hunter2" —
it comes from the non-secret field "note", which (as the claim itself
requires) appears as its concrete value. -/
theorem getPrintable_hunter2_counterexample :
    hunter2 = "hunter2".data ∧
    hasSecretValList "hunter2" cexCfg = true ∧
    hunter2 <:+: (GetPrintable (.ptrToStruct cexCfg)).getD [] :=
  ⟨by decide, by decide, by decide⟩

/-- C1 (amended): for every destination structure containing a
`SecretString` field with underlying value "hunter2", provided no field
name and no non-secret string value contains "hunter2", the byte output
of `GetPrintable` never contains the substring "hunter2", always
contains the fixed masking token, and preserves every non-secret field's
name and concrete value. -/
theorem getPrintable_masks_clean (fs : FieldList)
    (hclean : cleanList hunter2 fs = true)
    (hsec : hasSecretValList "hunter2" fs = true) :
    GetPrintable (.ptrToStruct fs) = .ok (serObj 0 (decodeMapToStructList fs)) ∧
    ¬ hunter2 <:+: serObj 0 (decodeMapToStructList fs) ∧
    maskToken.data <:+: serObj 0 (decodeMapToStructList fs) ∧
    strLeavesList (decodeMapToStructList fs) = strLeavesList fs := by
  refine ⟨rfl, ?_, ?_, strLeavesListMask fs⟩
  · exact serObjClean hunter2 (by decide) (by decide) _ 0
      (decodeMaskCleanList hunter2 (by decide) fs hclean)
  · exact maskInSerObj fs 0 (hasSecretValFieldList "hunter2" fs hsec)

/-- A clean structure with a secret "hunter2" field. -/
def maskWitnessCfg : FieldList :=
  .cons "password" (.secret ⟨"hunter2"⟩)
    (.cons "host" (.str "localhost") .nil)

/-- Witness for the amended C1 on a concrete structure. -/
theorem getPrintable_masks_clean_witness :
    GetPrintable (.ptrToStruct maskWitnessCfg) =
      .ok (serObj 0 (decodeMapToStructList maskWitnessCfg)) ∧
    ¬ hunter2 <:+: serObj 0 (decodeMapToStructList maskWitnessCfg) ∧
    maskToken.data <:+: serObj 0 (decodeMapToStructList maskWitnessCfg) ∧
    strLeavesList (decodeMapToStructList maskWitnessCfg) =
      strLeavesList maskWitnessCfg :=
  getPrintable_masks_clean maskWitnessCfg (by decide) (by decide)

/-- C7: masking preserves every non-secret string leaf (name and value),
and for a structure with no secret fields the byte output of
`GetPrintable` is exactly the JSON rendering of the original structure —
so decoding the output recovers every non-secret value's textual form
unchanged. -/
theorem getPrintable_roundtrip (fs : FieldList) :
    strLeavesList (decodeMapToStructList fs) = strLeavesList fs ∧
    (hasSecretFieldList fs = false →
      GetPrintable (.ptrToStruct fs) = .ok (serObj 0 fs)) := by
  refine ⟨strLeavesListMask fs, fun h => ?_⟩
  have h1 : GetPrintable (.ptrToStruct fs) =
      .ok (serObj 0 (decodeMapToStructList fs)) := rfl
  rw [h1, decodeMaskIdList fs h]

/-- Witness for C7 on a concrete secret-free structure. -/
theorem getPrintable_roundtrip_witness :
    strLeavesList (decodeMapToStructList
      (.cons "host" (.str "localhost") .nil)) =
      strLeavesList (.cons "host" (.str "localhost") .nil) ∧
    GetPrintable (.ptrToStruct (.cons "host" (.str "localhost") .nil)) =
      .ok (serObj 0 (.cons "host" (.str "localhost") .nil)) :=
  ⟨(getPrintable_roundtrip _).1, (getPrintable_roundtrip _).2 (by decide)⟩

end Salt

namespace Salt

/-- Witness for C3 at a concrete secret. -/
theorem secretString_display_and_secret_witness :
    (SecretString.mk "hunter2").string = maskToken ∧
    (SecretString.mk "hunter2").Secret = "hunter2" :=
  ⟨(secretString_display_and_secret "hunter2").1,
    (secretString_display_and_secret "hunter2").2.2.1⟩

/-- Witness for C8 at a concrete kind and state. -/
theorem load_invalid_argument_witness :
    Load (.nonPtr "int") ⟨false, []⟩ ⟨[], .notFound⟩ =
      (.error (.invalidArgument "require ptr to a struct for Load. Got int"),
        .nonPtr "int", ⟨false, []⟩) ∧
    Load (.ptrToOther "string") ⟨false, []⟩ ⟨[], .notFound⟩ =
      (.error (.invalidArgument "require ptr to a struct for Load. got ptr to string"),
        .ptrToOther "string", ⟨false, []⟩) :=
  ⟨(load_invalid_argument "int" ⟨false, []⟩ ⟨[], .notFound⟩).1,
    (load_invalid_argument "string" ⟨false, []⟩ ⟨[], .notFound⟩).2⟩

/-- Witness for C9 at concrete file outcomes. -/
theorem load_file_read_outcomes_witness :
    (Load (.ptrToStruct [⟨"host", "", none⟩]) ⟨false, []⟩
      ⟨[], .readError "yaml: unmarshal error"⟩).1 =
      .error (.sourceRead
        "unable to read configs using viper: yaml: unmarshal error") ∧
    (Load (.ptrToStruct [⟨"host", "", none⟩]) ⟨false, []⟩ ⟨[], .notFound⟩).1 =
      .ok () ∧
    (Load (.ptrToStruct [⟨"host", "", none⟩]) ⟨false, []⟩
      ⟨[], .found [("host", "h")]⟩).1 = .ok () :=
  ⟨(load_file_read_outcomes [⟨"host", "", none⟩] ⟨false, []⟩ []).1
      "yaml: unmarshal error",
    (load_file_read_outcomes [⟨"host", "", none⟩] ⟨false, []⟩ []).2.1,
    (load_file_read_outcomes [⟨"host", "", none⟩] ⟨false, []⟩ []).2.2.1
      [("host", "h")]⟩

/-- Witness for C10 at a concrete kind. -/
theorem getPrintable_nonptr_panics_witness :
    GetPrintable (.nonPtr "struct") =
      .panicked "reflect: call of reflect.Value.Elem on struct Value" ∧
    (Load (.nonPtr "struct") ⟨false, []⟩ ⟨[], .notFound⟩).1 =
      .error (.invalidArgument "require ptr to a struct for Load. Got struct") :=
  getPrintable_nonptr_panics "struct" ⟨false, []⟩ ⟨[], .notFound⟩

end Salt
